import Mathlib

/-!
# Verification of the perplexity-contact-finder aggregation pipeline

Shallow embedding of the repository's result-aggregation and deduplication
pipeline, and proofs checking the natural-language specification against it.

Conventions used throughout:
* Python floats are modelled as exact rationals (`ℚ`); every float literal
  appearing in the source (0.5, 1.0, 2.0, …) is decimal and exact.
* Python dictionaries that matter for the claims are modelled as
  insertion-ordered association lists; Python sets used only for membership
  are modelled as duplicate-free lists with add-if-absent insertion.
* The iteration order of a Python `set` (as in `list(set(...))`) is
  unspecified and varies with hash randomization; wherever the code relies on
  it, the embedding takes the ordering as an explicit parameter constrained
  only to produce a duplicate-free enumeration of the set's members
  (`pySetOrder` below).
* Fallible / exception-raising Python steps are modelled with `Option` or an
  explicit outcome type; callers' `try/except` handlers are translated as the
  corresponding `match`.
-/

namespace PCF

/-! ## Generic helpers: Python sets and dicts as lists -/

/-- Python `s.add(a)` on a set modelled as a duplicate-free list:
add the element at the end if it is not already present. -/
def insertSet {α : Type} [DecidableEq α] (a : α) (l : List α) : List α :=
  if a ∈ l then l else l ++ [a]

/-- Association-list lookup (Python `dict[k]` / `k in dict`). -/
def assocLookup {β : Type} (k : String) : List (String × β) → Option β
  | [] => none
  | (k', v) :: rest => if k' = k then some v else assocLookup k rest

/-- Association-list update (Python `dict[k] = v`): replaces the value of an
existing key in place, otherwise appends, matching dict insertion order. -/
def dictSet {β : Type} (k : String) (v : β) : List (String × β) → List (String × β)
  | [] => [(k, v)]
  | (k', v') :: rest => if k' = k then (k, v) :: rest else (k', v') :: dictSet k v rest

/-- Naive substring test (`needle in hay` on Python strings), on char lists. -/
def listHasSub (needle : List Char) : List Char → Bool
  | [] => needle.isPrefixOf []
  | c :: rest => needle.isPrefixOf (c :: rest) || listHasSub needle rest

/-- Python `needle in hay` on strings. -/
def strContains (hay needle : String) : Bool :=
  listHasSub needle.data hay.data

/-! ## Data model: `ContactInfo` (src/perplexity_client.py, dataclass) -/

/-- One entry of a contact's `sources` list: `{"url": .., "title": .., "relevance": ..}`. -/
structure Source where
  url : String
  title : String
  relevance : String
deriving DecidableEq, Repr

/-- The `ContactInfo` dataclass of `src/perplexity_client.py`.  The
`date_found` default factory (`datetime.now().isoformat()`) is a wall-clock
string irrelevant to every claim; the embedding defaults it to `""`. -/
structure ContactInfo where
  name : String
  company : String := ""
  primary_email : String := ""
  alternate_emails : List String := []
  primary_phone : String := ""
  alternate_phones : List String := []
  sources : List Source := []
  raw_response : String := ""
  confidence_score : ℚ := 0
  verification_status : List (String × String) := []
  notes : String := ""
  date_found : String := ""
deriving DecidableEq, Repr

/-! ## Enhanced search strategy (src/enhanced_search.py)

`EnhancedSearchStrategy` keeps `self.found_contacts` (a dict keyed by email or
by `f"{name}_{company}"`) and `self.processed_queries` (a set of strings). -/

/-- The mutable state of an `EnhancedSearchStrategy` instance. -/
structure StrategyState where
  found_contacts : List (String × ContactInfo)
  processed_queries : List String
deriving Repr

/-- Embeds `EnhancedSearchStrategy.__init__`: empty dict, empty set. -/
def initStrategyState : StrategyState := ⟨[], []⟩

/-- Models `contact.primary_email` where `contact` is the value returned by
`PerplexityClient.search_contact`.  `search_contact` returns a
`List[ContactInfo]` (a Python `list`), and a `list` object has no attribute
`primary_email`, so this attribute access raises `AttributeError`
unconditionally; the embedding returns `none` for "raises". -/
def pyListAttrPrimaryEmail (_contact : List ContactInfo) : Option String :=
  none

/-- Embeds `EnhancedSearchStrategy._search_with_tracking` (src/enhanced_search.py
lines 190-213).  The body first adds the query to `processed_queries`, then in
a `try` block calls `self.client.search_contact(query)` — which returns a
*list* of `ContactInfo` — and immediately evaluates
`contact.primary_email` on that list.  When the list is non-empty the
truthiness test `if contact:` passes and the attribute access raises
`AttributeError`, which the surrounding `except Exception` swallows (logging
only); when the list is empty the `if contact:` test fails.  Either way the
dict-update code on lines 200-208 is unreachable and the method returns `[]`.
`provider` stands for `self.client.search_contact`. -/
def searchWithTracking (provider : String → List ContactInfo) (query : String)
    (st : StrategyState) : List ContactInfo × StrategyState :=
  let st1 : StrategyState :=
    { st with processed_queries := insertSet query st.processed_queries }
  let contact := provider query
  if contact.isEmpty then
    -- `if contact:` is false for an empty list: fall through, return []
    ([], st1)
  else
    match pyListAttrPrimaryEmail contact with
    | none =>
      -- AttributeError from `contact.primary_email`; caught by `except`, logged
      ([], st1)
    | some _ =>
      -- unreachable: the dedup/insert logic of lines 200-208 never executes
      ([], st1)

/-- The merge step of the deduplication engine as the repository implements
it: feeding one incoming batch (the provider's result list for one query)
into the running `found_contacts` collection via `_search_with_tracking`. -/
def mergeBatch (st : StrategyState) (query : String) (batch : List ContactInfo) :
    StrategyState :=
  (searchWithTracking (fun _ => batch) query st).2

/-! ### Query generation (src/enhanced_search.py lines 50-131)

These produce the query lists iterated by `iterative_deep_search`.  They are
pure string catalogues; `generate_expanded_queries` never reads its
`base_query` argument. -/

/-- The `it_titles` catalogue. -/
def it_titles : List String :=
  ["IT Director", "Technology Director", "Chief Technology Officer", "CTO",
   "Director of Technology", "Technology Coordinator", "IT Manager",
   "Technology Manager", "Director of Information Technology",
   "Chief Information Officer", "CIO", "Technology Specialist",
   "Network Administrator", "Systems Administrator"]

/-- The `patterns` catalogue, each pattern as a function of (title, location)
mirroring `pattern.format(title=title, location=location)`. -/
def patterns : List (String → String → String) :=
  [fun t l => t ++ " " ++ l ++ " public schools contact list",
   fun t l => "all " ++ t ++ "s in " ++ l ++ " school districts",
   fun t l => l ++ " school district " ++ t ++ " directory",
   fun t l => "list of " ++ t ++ "s " ++ l ++ " K-12 schools",
   fun _ l => l ++ " public schools technology department contacts",
   fun t l => t ++ " email addresses " ++ l ++ " schools",
   fun t l => "complete list " ++ t ++ " " ++ l ++ " education",
   fun _ l => l ++ " school technology leaders contact information",
   fun t l => "who is the " ++ t ++ " for " ++ l ++ " schools",
   fun _ l => l ++ " district technology staff directory"]

/-- The `major_districts` catalogue used when the location is North Carolina. -/
def major_districts : List String :=
  ["Wake County", "Charlotte-Mecklenburg", "Guilford County", "Forsyth County",
   "Cumberland County", "Durham", "Buncombe County", "Union County",
   "Cabarrus County", "Johnston County", "Pitt County", "Onslow County",
   "New Hanover County", "Alamance-Burlington", "Chapel Hill-Carrboro"]

/-- Embeds `EnhancedSearchStrategy.generate_expanded_queries`.  The `base_query`
parameter of the Python method is never used in the body; queries already in
`processed_queries` are filtered out at generation time. -/
def generateExpandedQueries (location : String) (processed : List String) :
    List String :=
  (it_titles.flatMap (fun title => patterns.map (fun p => p title location))).filter
      (fun q => ¬ q ∈ processed)
    ++ (if location.toLower = "north carolina" then
          (major_districts.flatMap (fun d => (it_titles.take 5).map
            (fun t => t ++ " " ++ d ++ " Schools North Carolina contact"))).filter
            (fun q => ¬ q ∈ processed)
        else [])

/-- Embeds `EnhancedSearchStrategy.search_by_regions`. -/
def searchByRegions (state : String) : List String :=
  if state.toLower = "north carolina" then
    ["Western North Carolina", "Piedmont North Carolina",
     "Eastern North Carolina", "Charlotte metro area", "Raleigh-Durham area",
     "Triad area North Carolina", "Coastal North Carolina",
     "Mountain region North Carolina"].flatMap
      (fun region =>
        ["IT directors " ++ region ++ " schools",
         "technology coordinators " ++ region ++ " school districts",
         "K-12 technology staff " ++ region])
  else []

/-- Python `str.split()` (split on whitespace runs, dropping empties). -/
def pySplitWords (s : String) : List String :=
  (s.split Char.isWhitespace).filter (fun w => w ≠ "")

/-- The `districts` component of
`EnhancedSearchStrategy.extract_entities_from_results`: company names
containing "district" (but not "school") plus `"{word} District"` phrases
found in notes.  The Python code accumulates into a `set`; stage 3 then
iterates `list(entities['districts'])[:20]` whose order is unspecified — the
embedding keeps insertion order, which is immaterial because the only caller
reaches this code with an empty result list (see `iterativeDeepSearch`). -/
def extractDistricts (results : List ContactInfo) : List String :=
  results.foldl
    (fun acc c =>
      let acc :=
        if strContains c.company.toLower "school" then acc
        else if strContains c.company.toLower "district" then
          insertSet c.company acc
        else acc
      let ws := pySplitWords c.notes
      (List.range (ws.length - 1)).foldl
        (fun acc2 i =>
          if (ws.getD (i+1) "").toLower = "district" then
            insertSet ((ws.getD i "") ++ " District") acc2
          else acc2)
        acc)
    []

/-- One stage loop of `iterative_deep_search`: for each query, if not yet in
`processed_queries`, call `_search_with_tracking` and extend the running
result list (the `time.sleep(1)` between calls carries no state). -/
def runStage (provider : String → List ContactInfo) (queries : List String)
    (acc : List ContactInfo) (st : StrategyState) :
    List ContactInfo × StrategyState :=
  match queries with
  | [] => (acc, st)
  | q :: rest =>
    if q ∈ st.processed_queries then runStage provider rest acc st
    else
      let r := searchWithTracking provider q st
      runStage provider rest (acc ++ r.1) r.2

/-- Embeds `EnhancedSearchStrategy.iterative_deep_search` (lines 133-188).  The
`max_iterations` parameter of the Python method only appears in a log message
and is dropped here.  The location variable is the constant
`"North Carolina"` (the default, re-assigned to the same value when the query
mentions North Carolina).  Stage 3 only runs when the accumulated
`all_results` list is non-empty. -/
def iterativeDeepSearch (provider : String → List ContactInfo)
    (initial_query : String) (st0 : StrategyState) : List ContactInfo :=
  let location := "North Carolina"
  let broad := (generateExpandedQueries location st0.processed_queries).take 10
  let r1 := runStage provider broad [] st0
  let regional := (searchByRegions location).take 10
  let r2 := runStage provider regional r1.1 r1.2
  let stF :=
    if r2.1.isEmpty then r2.2
    else
      let districts := (extractDistricts r2.1).take 20
      let targeted := districts.map
        (fun d => "IT director technology coordinator " ++ d ++ " contact email")
      (runStage provider targeted r2.1 r2.2).2
  let _ := initial_query
  stF.found_contacts.map (fun kv => kv.2)

/-! ## Email regex of the fallback parser (src/perplexity_client.py line 269)

`re.findall(r'\b[A-Za-z0-9._%+-]+@[A-Za-z0-9.-]+\.[A-Z|a-z]{2,}\b', response)`
implemented as a small matcher specialised to this one pattern, with Python
`re` semantics: leftmost non-overlapping matches, greedy quantifiers with
backtracking, `\b` as a word/non-word boundary.  All inputs in this
development are ASCII, where Python's `\w` coincides with `[A-Za-z0-9_]`. -/

/-- Python `\w` on ASCII. -/
def isWordChar (c : Char) : Bool := c.isAlphanum || c = '_'

/-- The class `[A-Za-z0-9._%+-]` (local part). -/
def isLocalChar (c : Char) : Bool :=
  c.isAlphanum || c = '.' || c = '_' || c = '%' || c = '+' || c = '-'

/-- The class `[A-Za-z0-9.-]` (domain). -/
def isDomainChar (c : Char) : Bool := c.isAlphanum || c = '.' || c = '-'

/-- The class `[A-Z|a-z]` (top-level domain; the source pattern literally
includes `'|'` inside the character class). -/
def isTldChar (c : Char) : Bool := c.isAlpha || c = '|'

/-- The boundary `\b` between an optional previous and next character: exactly one of the
two sides is a word character (absent characters are non-word). -/
def wordBoundary (prev next : Option Char) : Bool :=
  (match prev with | some c => isWordChar c | none => false)
    ≠ (match next with | some c => isWordChar c | none => false)

/-- Backtracking search for the greedy `{2,}` bound of the TLD: try the
longest candidate length first, shrinking while the trailing `\b` fails. -/
def tldPickGo (cs run : List Char) : Nat → Option Nat
  | 0 => none
  | k + 1 =>
    if k + 1 < 2 then none
    else if wordBoundary (run.get? k) (cs.get? (k + 1)) then some (k + 1)
    else tldPickGo cs run k

/-- Greedy `[A-Z|a-z]{2,}\b` at `cs`: the run of TLD characters is consumed
greedily, backing off while the trailing `\b` fails; returns the number of
characters consumed. -/
def tldPick (cs : List Char) : Option Nat :=
  tldPickGo cs (cs.takeWhile isTldChar) (cs.takeWhile isTldChar).length

/-- Matches `\.[A-Z|a-z]{2,}\b` at `cs`. -/
def matchDotTld : List Char → Option Nat
  | '.' :: rest => (tldPick rest).map (fun n => n + 1)
  | _ => none

/-- Greedy `[A-Za-z0-9.-]+\.[A-Z|a-z]{2,}\b` continuation: `consumed` domain
characters have been taken so far; prefer consuming another domain character
(greedy), otherwise — provided at least one was consumed — try the literal
dot here (backtracking order of the regex engine). -/
def matchDomTail : List Char → Nat → Option Nat
  | cs@(c :: rest), consumed =>
    if isDomainChar c then
      match matchDomTail rest (consumed + 1) with
      | some n => some n
      | none => if consumed ≥ 1 then (matchDotTld cs).map (fun m => consumed + m) else none
    else if consumed ≥ 1 then (matchDotTld cs).map (fun m => consumed + m) else none
  | [], _ => none

/-- Attempt to match the whole email pattern at the head of `cs`, where
`prev` is the character just before `cs` in the subject (for `\b`).  Returns
the length of the match.  The local part needs no backtracking because `'@'`
is not in its character class. -/
def matchEmailAt (prev : Option Char) (cs : List Char) : Option Nat :=
  if wordBoundary prev cs.head? then
    let loc := cs.takeWhile isLocalChar
    if loc.length ≥ 1 then
      match cs.drop loc.length with
      | '@' :: rest => (matchDomTail rest 0).map (fun m => loc.length + 1 + m)
      | _ => none
    else none
  else none

/-- Scan for leftmost non-overlapping matches (`re.findall`).  `fuel` bounds
the recursion by the subject length; every successful match consumes at least
one character. -/
def findEmailsGo : Nat → Option Char → List Char → List String
  | 0, _, _ => []
  | _ + 1, _, [] => []
  | fuel + 1, prev, c :: rest =>
    match matchEmailAt prev (c :: rest) with
    | some n =>
      String.mk ((c :: rest).take n)
        :: findEmailsGo fuel ((c :: rest).get? (n - 1)) ((c :: rest).drop n)
    | none => findEmailsGo fuel (some c) rest

/-- Computes `re.findall(email_pattern, response)`, in subject order, duplicates kept. -/
def findEmails (response : String) : List String :=
  findEmailsGo response.data.length none response.data

/-! ## Response parser (src/perplexity_client.py) -/

/-- Admissibility of an ordering function standing for Python's
`list(set(xs))`: the result enumerates exactly the distinct members of `xs`,
in an order the language does not specify (hash randomization). -/
def pySetOrder (f : List String → List String) : Prop :=
  ∀ xs : List String, (f xs).Nodup ∧ ∀ a, a ∈ f xs ↔ a ∈ xs

/-- Embeds `PerplexityClient._parse_text_response` (lines 266-290).  Emails are
`list(set(re.findall(email_pattern, response)))` — the email matches are
computed by `findEmails` and the unspecified set order is the parameter
`eo`.  The phone matches (`phone_pattern`) likewise pass through
`list(set(...))` with order parameter `po`; the raw phone regex matches and
the URL matches are supplied as parameters `phoneMatches` / `urlMatches`
(no claim constrains them).  URLs are used in `re.findall` order, no set. -/
def parseTextResponse (eo po : List String → List String)
    (phoneMatches urlMatches : List String)
    (response original_query : String) : ContactInfo :=
  let emails := eo (findEmails response)
  let phones := po phoneMatches
  let sources := urlMatches.map
    (fun u => ({ url := u, title := "Source", relevance := "Found in response" } : Source))
  { name := original_query
    primary_email := emails.headD ""
    alternate_emails := emails.tail
    primary_phone := phones.headD ""
    alternate_phones := phones.tail
    sources := sources
    confidence_score := 1/2
    notes := "Parsed from text response" }

/-- One JSON object of the provider's structured answer, with the fields
`_parse_response_multiple` reads via `data.get(...)`.  `none` models an
absent key. -/
structure Candidate where
  name : Option String := none
  company : Option String := none
  emails : List String := []
  phones : List String := []
  sources : List Source := []
  confidence : Option ℚ := none
  notes : Option String := none
deriving DecidableEq, Repr

/-- The skip test of lines 164-166: drop a candidate whose `company` is
missing, empty (falsy), or a generic placeholder. -/
def keepCandidate (c : Candidate) : Bool :=
  match c.company with
  | none => false
  | some s =>
    s ≠ "" && ¬ (s.toLower = "company" || s.toLower = "business"
      || s.toLower = "organization")

/-- Lines 168-191: build a `ContactInfo` from one parsed JSON object. -/
def buildContact (response : String) (c : Candidate) : ContactInfo :=
  { name := c.name.getD ""
    company := c.company.getD ""
    primary_email := c.emails.headD ""
    alternate_emails := c.emails.tail
    primary_phone := c.phones.headD ""
    alternate_phones := c.phones.tail
    sources := c.sources
    confidence_score := c.confidence.getD (1/2)
    notes := c.notes.getD ""
    raw_response := response }

/-- Outcome of the JSON-extraction phase of `_parse_response_multiple`
(lines 145-160): either a list of decoded objects (a decoded single object is
already wrapped into a one-element list by the source), or the
`json.JSONDecodeError / TypeError` path. -/
inductive JsonPhase where
  | decoded (items : List Candidate)
  | failed
deriving Repr

/-- Embeds `PerplexityClient._parse_response_multiple` (lines 142-204).  On decode
failure, and also when decoding succeeded but yielded no usable contact, it
falls back to `_parse_text_response`; a `ContactInfo` instance is always
truthy, so the fallback always contributes exactly one contact. -/
def parseResponseMultiple (jp : JsonPhase) (eo po : List String → List String)
    (phoneMatches urlMatches : List String)
    (response original_query : String) : List ContactInfo :=
  match jp with
  | .failed =>
    [parseTextResponse eo po phoneMatches urlMatches response original_query]
  | .decoded items =>
    let contacts := (items.filter keepCandidate).map (buildContact response)
    if contacts.isEmpty then
      [parseTextResponse eo po phoneMatches urlMatches response original_query]
    else contacts

/-! ## Search provider adapter: retry / backoff / rate limiting
(src/perplexity_client.py, `search_contact`, lines 109-140) -/

/-- Observable events of a run: `time.sleep` calls (amount in seconds), the
provider API calls, and checkpoint writes (`save_state`). -/
inductive Event where
  | sleep (amount : ℚ)
  | apiCall (query : String)
  | checkpoint (processed : List String) (results : List ContactInfo)
deriving DecidableEq, Repr

/-- Outcome oracle for the attempts of one query: `attempts i = some r` means
the i-th attempt (0-based) returns the parsed contact list `r`; `none` means
the attempt body raises (transport/API error, or a parse crash). -/
def AttemptOracle := Nat → Option (List ContactInfo)

/-- The `while retries < self.max_retries` loop of `search_contact`, with
explicit fuel (`searchLoop` below instantiates `fuel := mr - retries`, which
makes fuel exhaustion coincide with the loop condition turning false).  Each
attempt is `time.sleep(rate_limit_delay)` followed by the API call; on an
exception `retries` is incremented and, unless that exhausts the budget
(return `[]`), the loop sleeps `2 ** retries` and goes round again. -/
def searchLoopFuel (d : ℚ) (mr : Nat) (q : String) (o : AttemptOracle) :
    Nat → Nat → List ContactInfo × List Event
  | 0, _ => ([], [])
  | fuel + 1, retries =>
    if retries < mr then
      match o retries with
      | some r => (r, [Event.sleep d, Event.apiCall q])
      | none =>
        if retries + 1 ≥ mr then ([], [Event.sleep d, Event.apiCall q])
        else
          let rest := searchLoopFuel d mr q o fuel (retries + 1)
          (rest.1,
            Event.sleep d :: Event.apiCall q :: Event.sleep ((2 : ℚ) ^ (retries + 1)) :: rest.2)
    else ([], [])

/-- Embeds `PerplexityClient.search_contact` reduced to its control skeleton: the
prompt strings do not influence the control flow; the parsed result of a
successful attempt comes from the oracle. -/
def searchLoop (d : ℚ) (mr : Nat) (q : String) (o : AttemptOracle) (retries : Nat) :
    List ContactInfo × List Event :=
  searchLoopFuel d mr q o (mr - retries) retries

/-- The event trace the source produces for a query whose every attempt
fails: attempts `0 .. mr-1`, each preceded by the rate-limit sleep, each but
the last followed by the exponential-backoff sleep `2^(attempt+1)` (the
backoff after the i-th failed attempt, counting attempts from 1, is `2^i`). -/
def specFailEvents (d : ℚ) (q : String) (mr : Nat) : List Event :=
  (List.range mr).flatMap
    (fun r =>
      [Event.sleep d, Event.apiCall q]
        ++ (if r + 1 < mr then [Event.sleep ((2 : ℚ) ^ (r + 1))] else []))

/-- Number of provider API calls in a trace. -/
def countCalls (evs : List Event) : Nat :=
  evs.countP (fun e => match e with | .apiCall _ => true | _ => false)

/-- Total time spent sleeping in a trace. -/
def totalSleep (evs : List Event) : ℚ :=
  (evs.map (fun e => match e with | .sleep a => a | _ => 0)).sum

/-- Every provider call in the trace is immediately preceded by a sleep of
the configured rate-limit delay `d`. -/
def callsPreceded (d : ℚ) (evs : List Event) : Prop :=
  ∀ i e, evs.get? i = some e →
    (match e with | Event.apiCall _ => True | _ => False) →
    0 < i ∧ evs.get? (i - 1) = some (Event.sleep d)

/-! ## Email verification (src/email_verifier.py) -/

/-- The fields of a provider verification dict that
`EmailVerificationService` reads downstream: `status`, and `score` (`none`
models an absent `'score'` key, as in every error dict). -/
structure VerifyResult where
  status : String
  score : Option ℚ := none
deriving DecidableEq, Repr

/-- Embeds `EmailVerificationService.verify_email` (lines 197-217): with no
configured verifier return `status = 'unverified'` (no score key); otherwise
the first verifier result whose status is not `'error'`; if all error,
return `status = 'error'` (no score key).  `vs` is the `self.verifiers`
list, each verifier abstracted as its result function. -/
def serviceVerifyEmail (vs : List (String → VerifyResult)) (email : String) :
    VerifyResult :=
  match vs with
  | [] => { status := "unverified" }
  | _ =>
    match (vs.map (fun v => v email)).find? (fun r => r.status ≠ "error") with
    | some r => r
    | none => { status := "error" }

/-- Settings of `Config` consumed by the pipeline (src/config.py defaults:
`rate_limit_delay = 1.0`, `max_retries = 3`, `batch_size = 10`,
`verify_emails = True`, `verify_phones = True`). -/
structure FinderConfig where
  rate_limit_delay : ℚ := 1
  max_retries : Nat := 3
  batch_size : Nat := 10
  verify_emails : Bool := true
  verify_phones : Bool := true
deriving Repr

/-- Embeds `EmailVerificationService.verify_all_emails` (lines 219-240).  Returns
the mutated contact.  Notable behaviour embedded verbatim from the source:
* the primary email's status is written into `verification_status`;
* `if result.get('score'):` — when the result carries a non-zero score the
  contact's `confidence_score` is multiplied by it (0, like a missing key,
  is falsy and skipped);
* `alternate_emails` is replaced by only those alternates whose verification
  status is `'valid'` or `'catch-all'` — all others are dropped, including
  when the service is unconfigured (`'unverified'`) or failing (`'error'`).
With `verify_emails` disabled the contact is returned untouched. -/
def verifyAllEmails (cfg : FinderConfig) (vs : List (String → VerifyResult))
    (contact : ContactInfo) : ContactInfo :=
  if ¬ cfg.verify_emails then contact
  else
    let c1 :=
      if contact.primary_email ≠ "" then
        let result := serviceVerifyEmail vs contact.primary_email
        let c' := { contact with
          verification_status :=
            dictSet "primary_email" result.status contact.verification_status }
        match result.score with
        | some s => if s ≠ 0 then { c' with confidence_score := c'.confidence_score * s } else c'
        | none => c'
      else contact
    { c1 with
      alternate_emails := contact.alternate_emails.filter
        (fun e =>
          let st := (serviceVerifyEmail vs e).status
          st = "valid" || st = "catch-all") }

/-! ## Phone verification (src/phone_verifier.py, `verify_all_phones`) -/

/-- The fields of a phone verification dict the caller reads: `valid` and
`formatted` (`none` models an absent key; an empty string is a present but
falsy value — the two behave differently under `.get('formatted', phone)`). -/
structure PhoneResult where
  valid : Bool
  formatted : Option String := none
deriving DecidableEq, Repr

/-- Embeds `PhoneVerificationService.verify_all_phones` (lines 225-247): writes
`'valid'/'invalid'` for the primary phone, replaces the primary phone with
its formatted version when valid and non-empty, and replaces
`alternate_phones` with the formatted versions of only the alternates that
verified valid.  `pv` abstracts `self.verify_phone`. -/
def verifyAllPhones (cfg : FinderConfig) (pv : String → PhoneResult)
    (contact : ContactInfo) : ContactInfo :=
  if ¬ cfg.verify_phones then contact
  else
    let c1 :=
      if contact.primary_phone ≠ "" then
        let result := pv contact.primary_phone
        let c' := { contact with
          verification_status :=
            dictSet "primary_phone" (if result.valid then "valid" else "invalid")
              contact.verification_status }
        if result.valid then
          match result.formatted with
          | some f => if f ≠ "" then { c' with primary_phone := f } else c'
          | none => c'
        else c'
      else contact
    { c1 with
      alternate_phones :=
        (contact.alternate_phones.filter (fun p => (pv p).valid)).map
          (fun p => (pv p).formatted.getD p) }

/-! ## Batch orchestrator (src/perplexity_contact_finder.py, `ContactFinder`) -/

/-- The resumable state of a `ContactFinder`: `self.processed_queries`
(a set) and `self.results`. -/
structure FinderState where
  processed_queries : List String
  results : List ContactInfo
deriving Repr

/-- Embeds `ContactFinder.__init__`: empty set, empty list. -/
def freshFinderState : FinderState := ⟨[], []⟩

/-- The checkpoint document written by `save_state` / read by `load_state`:
`{'processed_queries': [...], 'results': [...]}`. -/
structure CheckpointData where
  processed_queries : List String
  results : List ContactInfo
deriving Repr

/-- Embeds `ContactFinder.load_state` (lines 214-229): if the state file exists and
parses, install its query set and append its contacts to the (empty) result
list; otherwise (missing file or load error) leave the fresh state. -/
def loadState (cp : Option CheckpointData) : FinderState :=
  match cp with
  | some data => ⟨data.processed_queries, data.results⟩
  | none => freshFinderState

/-- Per-query oracle for a whole job: `oracle q i` is the outcome of the
i-th attempt of query `q` (see `AttemptOracle`). -/
def JobOracle := String → AttemptOracle

/-- The contact-processing pipeline applied to each found contact inside
`find_contacts`: email verification then phone verification. -/
def verifyPipeline (cfg : FinderConfig) (vs : List (String → VerifyResult))
    (pv : String → PhoneResult) (c : ContactInfo) : ContactInfo :=
  verifyAllPhones cfg pv (verifyAllEmails cfg vs c)

/-- The body of the per-query `try` block of `find_contacts` (lines
279-308): search, verify each found contact, append to results, mark the
query processed, `save_state` (emitted as a checkpoint event).  None of the
embedded callees raises, so the `except ... continue` handler is dead. -/
def processQuery (cfg : FinderConfig) (vs : List (String → VerifyResult))
    (pv : String → PhoneResult) (oracle : JobOracle)
    (st : FinderState) (q : String) : FinderState × List Event :=
  let r := searchLoop cfg.rate_limit_delay cfg.max_retries q (oracle q) 0
  let verified := r.1.map (verifyPipeline cfg vs pv)
  let results' := st.results ++ verified
  let processed' := insertSet q st.processed_queries
  (⟨processed', results'⟩, r.2 ++ [Event.checkpoint processed' results'])

/-- Process the queries of one batch in order. -/
def runChunk (cfg : FinderConfig) (vs : List (String → VerifyResult))
    (pv : String → PhoneResult) (oracle : JobOracle) :
    List String → FinderState → FinderState × List Event
  | [], st => (st, [])
  | q :: rest, st =>
    let r1 := processQuery cfg vs pv oracle st q
    let r2 := runChunk cfg vs pv oracle rest r1.1
    (r2.1, r1.2 ++ r2.2)

/-- Process the batches in order; `time.sleep(2)` runs between consecutive
batches (`if i + batch_size < len(remaining_queries)`), i.e. after every
batch except the last. -/
def runBatches (cfg : FinderConfig) (vs : List (String → VerifyResult))
    (pv : String → PhoneResult) (oracle : JobOracle) :
    List (List String) → FinderState → FinderState × List Event
  | [], st => (st, [])
  | [chunk], st => runChunk cfg vs pv oracle chunk st
  | chunk :: rest, st =>
    let r1 := runChunk cfg vs pv oracle chunk st
    let r2 := runBatches cfg vs pv oracle rest r1.1
    (r2.1, r1.2 ++ [Event.sleep 2] ++ r2.2)

/-- Python `remaining_queries[i:i+batch_size]` chunking, fuelled by the list length
(`range(0, len, batch_size)`; the source never runs it with
`batch_size = 0`, which Python would reject). -/
def chunkAux {α : Type} : Nat → Nat → List α → List (List α)
  | 0, _, _ => []
  | _ + 1, _, [] => []
  | fuel + 1, n, l => l.take n :: chunkAux fuel n (l.drop n)

/-- Split a list into consecutive chunks of size `n`. -/
def chunkList {α : Type} (n : Nat) (l : List α) : List (List α) :=
  chunkAux l.length n l

/-- Embeds `ContactFinder.find_contacts` (lines 258-314) for one call.  `cp` is the
content of the on-disk state file (used only when `resume` is set);
already-processed queries are filtered out up front; when nothing remains the
stored results are returned with no provider traffic. -/
def findContacts (cfg : FinderConfig) (vs : List (String → VerifyResult))
    (pv : String → PhoneResult) (oracle : JobOracle)
    (queries : List String) (resume : Bool) (cp : Option CheckpointData) :
    FinderState × List Event :=
  let st0 := if resume then loadState cp else freshFinderState
  let remaining := queries.filter (fun q => ¬ q ∈ st0.processed_queries)
  if remaining.isEmpty then (st0, [])
  else runBatches cfg vs pv oracle (chunkList cfg.batch_size remaining) st0

/-- The verified contacts contributed by one query of a run. -/
def queryContacts (cfg : FinderConfig) (vs : List (String → VerifyResult))
    (pv : String → PhoneResult) (oracle : JobOracle) (q : String) :
    List ContactInfo :=
  ((searchLoop cfg.rate_limit_delay cfg.max_retries q (oracle q) 0).1).map
    (verifyPipeline cfg vs pv)

/-! ## Web enrichment job (src/web_app.py, `run_enrichment` / `cancel_job`)

`job_status[job_id]` is a dict owned by the background thread; the
`paused` / `cancelled` flags inside it are written by the HTTP routes and
polled by the run loop at the top of each company iteration.  The embedding
reads them through oracles indexed by iteration (`cancelRead i` is the value
of the flag when iteration `i` polls it; `pauseSpins i` the number of times
the pause poll found the flag set before it cleared).  The random
`uuid.uuid4()` id attached to each result dict and the sqlite side writes are
not modelled; no claim mentions them. -/

/-- One entry of the `queries` payload: `{'company': .., 'role': .., 'query': ..}`. -/
structure QueryItem where
  company : String
  role : String
  query : String := ""
deriving DecidableEq, Repr

/-- The `company_queries` grouping (lines 2201-2205): an insertion-ordered dict
from company to its list of roles. -/
def addToGroup (c r : String) : List (String × List String) → List (String × List String)
  | [] => [(c, [r])]
  | (c', rs) :: rest =>
    if c' = c then (c', rs ++ [r]) :: rest else (c', rs) :: addToGroup c r rest

/-- Group the query items by company, preserving first-seen company order. -/
def groupQueries (qs : List QueryItem) : List (String × List String) :=
  qs.foldl (fun acc q => addToGroup q.company q.role acc) []

/-- One result dict as built on lines 2253-2265 (minus the random uuid). -/
structure WebResult where
  name : String
  title : String
  company : String
  email : String
  phone : String
  confidence : ℚ
  sources : List Source
  alternate_emails : List String
  alternate_phones : List String
  notes : String
deriving DecidableEq, Repr

/-- The lazy-group regex `^(.*?)\s*\((.*?)\)` applied to a name (lines
2246-2251): the first `'('` that has some `')'` after it splits the string;
group 1 is everything before it, group 2 everything up to the next `')'`.
Both are then `.strip()`-ed by the caller. -/
def parenSplit : List Char → List Char → Option (String × String)
  | acc, c :: rest =>
    if c = '(' && rest.contains ')' then
      some (String.mk acc.reverse, String.mk (rest.takeWhile (fun d => d ≠ ')')))
    else parenSplit (c :: acc) rest
  | _, [] => none

/-- The name/title extraction of lines 2240-2251: prefer splitting on
`" - "` (first two parts), else on a parenthesised title when the name
contains both `'('` and `')'` and the regex matches, else keep the name with
an empty title.  (`'title': title or contact.title if hasattr(...) else ''`
parses as `title or (...)`, and `ContactInfo` has no `title` attribute, so
the stored title is exactly the extracted one.) -/
def splitNameTitle (raw : String) : String × String :=
  if strContains raw " - " then
    let parts := raw.splitOn " - "
    (parts.headD "", (parts.drop 1).headD "")
  else if raw.contains '(' && raw.contains ')' then
    match parenSplit [] raw.data with
    | some (n, t) => (n.trim, t.trim)
    | none => (raw, "")
  else (raw, "")

/-- Lines 2240-2265: convert a `ContactInfo` into the result dict, with the
company of the current group as fallback. -/
def buildWebResult (company : String) (c : ContactInfo) : WebResult :=
  let nm := if c.name ≠ "" then c.name else c.company ++ " Contact"
  let (n, t) := splitNameTitle nm
  { name := n
    title := t
    company := if c.company ≠ "" then c.company else company
    email := c.primary_email
    phone := c.primary_phone
    confidence := c.confidence_score
    sources := c.sources
    alternate_emails := c.alternate_emails
    alternate_phones := c.alternate_phones
    notes := c.notes }

/-- The batched provider query built for one company (lines 2224-2227). -/
def mkBatchQuery (company : String) (roles : List String) : String :=
  if roles.length > 1 then
    "Find contact information for the following positions at " ++ company
      ++ ": " ++ String.intercalate ", " roles
      ++ ". Return email and phone for each person."
  else
    "Find " ++ roles.headD "" ++ " contact information (email and phone) for " ++ company

/-- The `additional_context` string (line 2233). -/
def mkContext (company : String) (roles : List String) : String :=
  "Looking specifically for: " ++ String.intercalate ", " roles ++ " at "
    ++ company ++ ". Need actual names, emails, and phone numbers."

/-- The progress string (line 2221). -/
def mkSearchMsg (company : String) (roles : List String) : String :=
  "Searching for " ++ String.intercalate ", " (roles.take 2)
    ++ (if roles.length > 2 then "..." else "") ++ " at " ++ company

/-- Outcome of one `perplexity_client.search_contact` call inside the web
job: a contact list, or an exception with its message. -/
inductive PyCall where
  | ok (contacts : List ContactInfo)
  | exn (msg : String)

/-- The `job_status[job_id]` dict fields the run loop writes. -/
structure JobStatus where
  status : String
  total : Nat
  completed : Nat
  contacts_found : Nat
  emails_found : Nat
  phones_found : Nat
  results : List WebResult
  current_search : String
  errors : List (String × String)
  error : String := ""
deriving Repr

/-- The initial `job_status` entry created by `start_enrichment`
(lines 2159-2169). -/
def initJobStatus (total : Nat) : JobStatus :=
  { status := "running", total := total, completed := 0, contacts_found := 0,
    emails_found := 0, phones_found := 0, results := [], current_search := "",
    errors := [] }

/-- The result dicts contributed by one company group given its provider
call outcome: every contact on success, nothing on exception. -/
def groupWebResults (provider : String → String → PyCall)
    (g : String × List String) : List WebResult :=
  match provider (mkBatchQuery g.1 g.2) (mkContext g.1 g.2) with
  | .ok cs => cs.map (buildWebResult g.1)
  | .exn _ => []

/-- The `for company, roles in company_queries.items()` loop of
`run_enrichment` (lines 2209-2312).  Per iteration: poll the pause flag (the
loop writes `status = 'paused'` while it spins), then the cancel flag — on
cancellation set `status = 'cancelled'` and return, leaving
`job_status['results']` at whatever the previous iteration stored; otherwise
update progress, issue the one batched provider call inside `try`, append
result dicts and bump counters on success, record an error entry on an empty
result or an exception, then publish the accumulated list into
`job_status['results']` and sleep the rate-limit delay.  The invariant
`js.results = results` (the published field mirrors the local accumulator at
each loop head) is established by `runEnrichment`. -/
def enrichLoop (provider : String → String → PyCall) (cancelRead : Nat → Bool)
    (pauseSpins : Nat → Nat) (totalQueries : Nat) :
    List (String × List String) → Nat → Nat → List WebResult → JobStatus → JobStatus
  | [], _, _, _, js => { js with status := "completed", completed := totalQueries }
  | (company, roles) :: rest, i, totalProcessed, results, js =>
    let js := if pauseSpins i > 0 then { js with status := "paused" } else js
    if cancelRead i then { js with status := "cancelled" }
    else
      let js := { js with completed := totalProcessed,
                          current_search := mkSearchMsg company roles }
      let step :=
        match provider (mkBatchQuery company roles) (mkContext company roles) with
        | .ok cs =>
          if cs.isEmpty then
            (results, { js with errors := js.errors ++ [(company, "No contacts found")] })
          else
            (results ++ cs.map (buildWebResult company),
             { js with
                contacts_found := js.contacts_found + cs.length,
                emails_found :=
                  js.emails_found + cs.countP (fun (c : ContactInfo) => c.primary_email ≠ ""),
                phones_found :=
                  js.phones_found + cs.countP (fun (c : ContactInfo) => c.primary_phone ≠ "") })
        | .exn m => (results, { js with errors := js.errors ++ [(company, m)] })
      let results' := step.1
      let js := { step.2 with results := results' }
      enrichLoop provider cancelRead pauseSpins totalQueries rest (i + 1)
        (totalProcessed + roles.length) results' js

/-- Embeds `run_enrichment(job_id, queries)` (lines 2177-2312).  `hasKey` models
`config.perplexity_api_key` being set; without it the job errors out before
any provider traffic. -/
def runEnrichment (hasKey : Bool) (provider : String → String → PyCall)
    (cancelRead : Nat → Bool) (pauseSpins : Nat → Nat)
    (queries : List QueryItem) : JobStatus :=
  let js := initJobStatus queries.length
  if ¬ hasKey then
    { js with status := "error", error := "Perplexity API key not configured" }
  else
    enrichLoop provider cancelRead pauseSpins queries.length
      (groupQueries queries) 0 0 [] js

/-! # Theorems -/

/-! ## Enhanced search: the tracking merge never changes anything -/

/-- Fact: `_search_with_tracking` always returns `([], st with the query marked
processed)`: the list truthiness test and the swallowed `AttributeError`
leave no path to the insertion code. -/
theorem searchWithTracking_eq (provider : String → List ContactInfo)
    (q : String) (st : StrategyState) :
    searchWithTracking provider q st =
      ([], { st with processed_queries := insertSet q st.processed_queries }) := by
  unfold searchWithTracking
  dsimp only
  split <;> rfl

theorem insertSet_mem_self {α : Type} [DecidableEq α] (a : α) (l : List α) :
    a ∈ insertSet a l := by
  by_cases h : a ∈ l <;> simp [insertSet, h]

theorem insertSet_mem {α : Type} [DecidableEq α] {a b : α} {l : List α} :
    a ∈ insertSet b l ↔ a ∈ l ∨ a = b := by
  by_cases h : b ∈ l
  · simp only [insertSet, if_pos h]
    constructor
    · exact fun h' => Or.inl h'
    · rintro (h' | rfl) <;> assumption
  · simp only [insertSet, if_neg h, List.mem_append, List.mem_singleton]

theorem insertSet_idem {α : Type} [DecidableEq α] (a : α) (l : List α) :
    insertSet a (insertSet a l) = insertSet a l := by
  by_cases h : a ∈ l <;> simp [insertSet, h]

theorem runStage_fst (provider : String → List ContactInfo) :
    ∀ (queries : List String) (acc : List ContactInfo) (st : StrategyState),
      (runStage provider queries acc st).1 = acc := by
  intro queries
  induction queries with
  | nil => intro acc st; rfl
  | cons q rest ih =>
    intro acc st
    unfold runStage
    split
    · exact ih acc st
    · simp only [searchWithTracking_eq]
      simpa using ih acc _

theorem runStage_found (provider : String → List ContactInfo) :
    ∀ (queries : List String) (acc : List ContactInfo) (st : StrategyState),
      (runStage provider queries acc st).2.found_contacts = st.found_contacts := by
  intro queries
  induction queries with
  | nil => intro acc st; rfl
  | cons q rest ih =>
    intro acc st
    unfold runStage
    split
    · exact ih acc st
    · simp only [searchWithTracking_eq]
      exact ih _ _

/-- C10.  `_search_with_tracking` returns the empty list for every query:
when `search_contact` returns a non-empty list the `.primary_email` access on
that list raises `AttributeError`, caught by the handler, and no contact is
added; consequently `iterative_deep_search` returns an empty contact list for
every input query (run on a fresh strategy instance). -/
theorem searchWithTracking_always_empty :
    ∀ (provider : String → List ContactInfo) (q : String) (st : StrategyState)
      (initial_query : String),
      (searchWithTracking provider q st).1 = []
        ∧ iterativeDeepSearch provider initial_query initStrategyState = [] := by
  intro provider q st initial_query
  constructor
  · rw [searchWithTracking_eq]
  · unfold iterativeDeepSearch
    dsimp only
    split
    · rw [runStage_found, runStage_found]; rfl
    · rw [runStage_found, runStage_found, runStage_found]; rfl

/-- C1 (amended).  When an incoming contact shares an identity key with an
existing contact, the existing contact is kept completely unchanged — its
confidence is never reduced and its sources are never dropped — but the
engine never adopts the higher-confidence incoming variant and never unions
sources or alternate lists: `_search_with_tracking` leaves `found_contacts`
exactly as it was, for every provider result. -/
theorem merge_keeps_existing_unchanged
    (provider : String → List ContactInfo) (q : String) (st : StrategyState) :
    (searchWithTracking provider q st).2.found_contacts = st.found_contacts := by
  rw [searchWithTracking_eq]

/-- C1 counterexample.  An existing contact for `jane@acme.com` at
confidence 0.6 and an incoming variant of the same email at confidence 0.9:
after the merge the kept variant is still the 0.6 one (the incoming
higher-confidence contact is not kept, and no source union happens). -/
theorem merge_drops_higher_confidence_variant :
    let jane06 : ContactInfo :=
      { name := "Jane Doe", company := "Acme", primary_email := "jane@acme.com",
        confidence_score := 3/5,
        sources := [{ url := "https://a.example/1", title := "A", relevance := "r1" }] }
    let jane09 : ContactInfo :=
      { name := "Jane Doe", company := "Acme", primary_email := "jane@acme.com",
        confidence_score := 9/10,
        sources := [{ url := "https://b.example/2", title := "B", relevance := "r2" }] }
    let st : StrategyState := ⟨[("jane@acme.com", jane06)], []⟩
    let st' := mergeBatch st "find jane acme" [jane09]
    assocLookup "jane@acme.com" st'.found_contacts = some jane06
      ∧ jane06.confidence_score < jane09.confidence_score
      ∧ assocLookup "jane@acme.com" st'.found_contacts ≠ some jane09 := by
  refine ⟨rfl, by norm_num, ?_⟩
  intro h
  have := Option.some.inj h
  have hc : (3 : ℚ)/5 = 9/10 := congrArg ContactInfo.confidence_score this
  norm_num at hc

/-- C3.  The merge is idempotent: feeding the same incoming batch into the
collection a second time leaves the state (result collection and processed
set) exactly as after the first merge — degenerately so, because the merge
never inserts anything (see C10/C1). -/
theorem merge_idempotent (st : StrategyState) (q : String)
    (batch : List ContactInfo) :
    mergeBatch (mergeBatch st q batch) q batch = mergeBatch st q batch := by
  unfold mergeBatch
  simp only [searchWithTracking_eq]
  simp [insertSet_idem]

/-! ## Email verification: what it touches and what it leaves alone -/

/-- C9 (amended).  Email verification never removes the contact and leaves
`name`, `company`, `primary_email`, `primary_phone`, `alternate_phones`,
`sources` and `notes` unchanged for every outcome — but it does NOT leave
`confidence_score` and `alternate_emails` unchanged: when verification is
enabled the confidence is multiplied by any non-zero verifier score of the
primary email, and `alternate_emails` is replaced by the sublist of
alternates whose status verified as `valid` or `catch-all` (all others are
dropped, including when the service is unconfigured or failing). -/
theorem verify_email_frame (cfg : FinderConfig)
    (vs : List (String → VerifyResult)) (c : ContactInfo) :
    (verifyAllEmails cfg vs c).name = c.name
      ∧ (verifyAllEmails cfg vs c).company = c.company
      ∧ (verifyAllEmails cfg vs c).primary_email = c.primary_email
      ∧ (verifyAllEmails cfg vs c).primary_phone = c.primary_phone
      ∧ (verifyAllEmails cfg vs c).alternate_phones = c.alternate_phones
      ∧ (verifyAllEmails cfg vs c).sources = c.sources
      ∧ (verifyAllEmails cfg vs c).notes = c.notes
      ∧ (verifyAllEmails cfg vs c).alternate_emails =
          (if cfg.verify_emails then
            c.alternate_emails.filter (fun e =>
              let st := (serviceVerifyEmail vs e).status
              st = "valid" || st = "catch-all")
          else c.alternate_emails)
      ∧ (verifyAllEmails cfg vs c).confidence_score =
          (if cfg.verify_emails && c.primary_email ≠ "" then
            match (serviceVerifyEmail vs c.primary_email).score with
            | some s =>
              if s ≠ 0 then c.confidence_score * s else c.confidence_score
            | none => c.confidence_score
          else c.confidence_score) := by
  unfold verifyAllEmails
  by_cases hv : cfg.verify_emails
  · by_cases hp : c.primary_email = ""
    · simp [hv, hp]
    · cases hs : (serviceVerifyEmail vs c.primary_email).score with
      | none => simp [hv, hp, hs]
      | some s =>
        by_cases h0 : s = 0
        · simp [hv, hp, hs, h0]
        · simp [hv, hp, hs, h0]
  · simp at hv
    simp [hv]

/-- C9 counterexample.  With email verification enabled and no verification
provider configured (every status is `'unverified'`), verifying a contact
deletes its alternate email; and with a provider returning
`status = 'valid', score = 0.5`, verification halves the contact's
confidence.  Both contradict "never removes any of its email values" and
"leaves confidence unchanged". -/
theorem verify_email_mutates :
    let jane : ContactInfo :=
      { name := "Jane Doe", company := "Acme",
        primary_email := "jane@acme.com",
        alternate_emails := ["alt@acme.com"], confidence_score := 9/10 }
    (verifyAllEmails {} [] jane).alternate_emails = []
      ∧ jane.alternate_emails = ["alt@acme.com"]
      ∧ (verifyAllEmails {}
            [fun _ => { status := "valid", score := some (1/2) }]
            jane).confidence_score = 9/20
      ∧ jane.confidence_score = 9/10 := by
  refine ⟨rfl, rfl, ?_, rfl⟩
  simp [verifyAllEmails, serviceVerifyEmail, List.find?, dictSet]
  norm_num

/-! ## Response parser: the text fallback -/

theorem pySetOrder_ne_nil {f : List String → List String} (hf : pySetOrder f)
    {xs : List String} (h : xs ≠ []) : f xs ≠ [] := by
  obtain ⟨a, ha⟩ := List.exists_mem_of_ne_nil xs h
  exact List.ne_nil_of_mem (((hf xs).2 a).mpr ha)

theorem headD_mem_of_ne_nil {l : List String} (h : l ≠ []) : l.headD "" ∈ l := by
  cases l with
  | nil => exact absurd rfl h
  | cons x xs => exact List.mem_cons_self x xs

theorem nodup_all_eq {l : List String} {a : String} (hn : l.Nodup)
    (ha : ∀ x ∈ l, x = a) (hne : l ≠ []) : l = [a] := by
  cases l with
  | nil => exact absurd rfl hne
  | cons x xs =>
    cases xs with
    | nil => rw [ha x (List.mem_cons_self x [])]
    | cons y ys =>
      exfalso
      have hx : x = a := ha x (by simp)
      have hy : y = a := ha y (by simp)
      have : x ∈ y :: ys := by rw [hx, ← hy]; simp
      exact (List.nodup_cons.mp hn).1 this

/-- C4 (amended).  For a raw response that fails JSON decoding but contains
at least one email match, the parser returns exactly one Contact with
`confidence = 0.5`, `name = original_query` and
`notes = "Parsed from text response"`, whose `primary_email` is *one of* the
emails matched in the text — which one is unspecified, because the matches
pass through `list(set(...))`; only when the text contains exactly one
distinct email is `primary_email` guaranteed to be the first (and only)
email of the text. -/
theorem parse_fallback_contract (eo po : List String → List String)
    (pm um : List String) (resp q : String)
    (heo : pySetOrder eo) (hne : findEmails resp ≠ []) :
    parseResponseMultiple JsonPhase.failed eo po pm um resp q =
        [parseTextResponse eo po pm um resp q]
      ∧ (parseTextResponse eo po pm um resp q).primary_email ∈ findEmails resp
      ∧ (parseTextResponse eo po pm um resp q).confidence_score = 1/2
      ∧ (parseTextResponse eo po pm um resp q).name = q
      ∧ (parseTextResponse eo po pm um resp q).notes = "Parsed from text response"
      ∧ ((findEmails resp).dedup.length = 1 →
          (parseTextResponse eo po pm um resp q).primary_email
            = (findEmails resp).headD "") := by
  have hfe : eo (findEmails resp) ≠ [] := pySetOrder_ne_nil heo hne
  refine ⟨rfl, ?_, rfl, rfl, rfl, ?_⟩
  · show (eo (findEmails resp)).headD "" ∈ findEmails resp
    exact ((heo (findEmails resp)).2 _).mp (headD_mem_of_ne_nil hfe)
  · intro h1
    show (eo (findEmails resp)).headD "" = (findEmails resp).headD ""
    set xs := findEmails resp with hxs
    obtain ⟨a, ha⟩ : ∃ a, xs.dedup = [a] := by
      cases hd : xs.dedup with
      | nil => rw [hd] at h1; simp at h1
      | cons b bs =>
        cases bs with
        | nil => exact ⟨b, rfl⟩
        | cons c cs => rw [hd] at h1; simp at h1
    have hall : ∀ x ∈ xs, x = a := by
      intro x hx
      have : x ∈ xs.dedup := List.mem_dedup.mpr hx
      rw [ha] at this
      simpa using this
    have hEo : eo xs = [a] := by
      refine nodup_all_eq (heo xs).1 ?_ hfe
      intro x hx
      exact hall x (((heo xs).2 x).mp hx)
    have hXs : xs.headD "" = a := hall _ (headD_mem_of_ne_nil hne)
    rw [hEo, hXs]
    rfl

/-- C4 witness: a text with exactly one email.  The fallback produces one
Contact carrying that email at confidence 0.5. -/
theorem parse_fallback_contract_witness :
    pySetOrder (fun xs => xs.dedup)
      ∧ findEmails "reach me at only@one.com please" ≠ []
      ∧ (parseResponseMultiple JsonPhase.failed (fun xs => xs.dedup) id [] []
            "reach me at only@one.com please" "find one" =
          [parseTextResponse (fun xs => xs.dedup) id [] []
            "reach me at only@one.com please" "find one"]
        ∧ (parseTextResponse (fun xs => xs.dedup) id [] []
            "reach me at only@one.com please" "find one").primary_email
            ∈ findEmails "reach me at only@one.com please"
        ∧ (parseTextResponse (fun xs => xs.dedup) id [] []
            "reach me at only@one.com please" "find one").confidence_score = 1/2
        ∧ (parseTextResponse (fun xs => xs.dedup) id [] []
            "reach me at only@one.com please" "find one").name = "find one"
        ∧ (parseTextResponse (fun xs => xs.dedup) id [] []
            "reach me at only@one.com please" "find one").notes
            = "Parsed from text response"
        ∧ ((findEmails "reach me at only@one.com please").dedup.length = 1 →
            (parseTextResponse (fun xs => xs.dedup) id [] []
              "reach me at only@one.com please" "find one").primary_email
              = (findEmails "reach me at only@one.com please").headD "")) := by
  have hf : pySetOrder (fun xs => xs.dedup) :=
    fun xs => ⟨xs.nodup_dedup, fun a => List.mem_dedup⟩
  have hne : findEmails "reach me at only@one.com please" ≠ [] := by decide
  exact ⟨hf, hne,
    parse_fallback_contract (fun xs => xs.dedup) id [] []
      "reach me at only@one.com please" "find one" hf hne⟩

/-- C4 counterexample.  A non-JSON response containing two emails,
`aaa@apple.com` first and `zzz@zebra.com` second.  Reversal of the
deduplicated match list is an admissible `list(set(...))` enumeration
(Python's set iteration order is unspecified), and under it the produced
Contact's `primary_email` is `zzz@zebra.com`, not the first email of the
text — so "primary_email equals the first email occurring in the text" does
not hold of the code. -/
theorem parse_fallback_not_first_email :
    pySetOrder (fun xs => xs.dedup.reverse)
      ∧ findEmails "Contact aaa@apple.com and zzz@zebra.com"
          = ["aaa@apple.com", "zzz@zebra.com"]
      ∧ (parseResponseMultiple JsonPhase.failed (fun xs => xs.dedup.reverse)
            id [] [] "Contact aaa@apple.com and zzz@zebra.com" "roofers").map
            (fun c => c.primary_email) = ["zzz@zebra.com"] := by
  refine ⟨fun xs => ⟨?_, fun a => ?_⟩, by decide, by decide⟩
  · exact List.nodup_reverse.mpr xs.nodup_dedup
  · rw [List.mem_reverse, List.mem_dedup]

/-! ## Retry loop traces -/

theorem searchLoopFuel_fail (d : ℚ) (q : String) (mr : Nat) (o : AttemptOracle)
    (ho : ∀ i, o i = none) :
    ∀ n j, n = mr - j → j < mr →
      searchLoopFuel d mr q o n j =
        ([], (List.range' j n).flatMap (fun r =>
          [Event.sleep d, Event.apiCall q]
            ++ (if r + 1 < mr then [Event.sleep ((2 : ℚ) ^ (r + 1))] else []))) := by
  intro n
  induction n with
  | zero => intro j hn hj; omega
  | succ m ih =>
    intro j hn hj
    rw [searchLoopFuel]
    rw [if_pos hj, ho j]
    by_cases hlast : j + 1 ≥ mr
    · have hm : m = 0 := by omega
      have hif : ¬ (j + 1 < mr) := by omega
      subst hm
      simp [List.range'_succ, hif]
    · have hj1 : j + 1 < mr := by omega
      rw [if_neg (by omega : ¬ j + 1 ≥ mr)]
      rw [ih (j + 1) (by omega) hj1]
      simp [List.range'_succ, hj1]

theorem searchLoop_fail (d : ℚ) (q : String) (mr : Nat) (o : AttemptOracle)
    (hmr : 1 ≤ mr) (ho : ∀ i, o i = none) :
    searchLoop d mr q o 0 = ([], specFailEvents d q mr) := by
  unfold searchLoop specFailEvents
  rw [searchLoopFuel_fail d q mr o ho (mr - 0) 0 rfl (by omega)]
  rw [Nat.sub_zero, List.range_eq_range']

theorem countCalls_block (d b : ℚ) (q : String) (c : Prop) [Decidable c] :
    countCalls ([Event.sleep d, Event.apiCall q]
      ++ (if c then [Event.sleep b] else [])) = 1 := by
  split <;> rfl

theorem countCalls_flatMap_blocks (d : ℚ) (q : String) (mr : Nat) :
    ∀ l : List Nat,
      countCalls (l.flatMap (fun r =>
        [Event.sleep d, Event.apiCall q]
          ++ (if r + 1 < mr then [Event.sleep ((2 : ℚ) ^ (r + 1))] else [])))
        = l.length := by
  intro l
  induction l with
  | nil => rfl
  | cons r rest ih =>
    rw [List.flatMap_cons]
    unfold countCalls at *
    rw [List.countP_append, ← countCalls, countCalls_block, ih, List.length_cons]
    omega

theorem countCalls_specFailEvents (d : ℚ) (q : String) (mr : Nat) :
    countCalls (specFailEvents d q mr) = mr := by
  unfold specFailEvents
  rw [countCalls_flatMap_blocks]
  exact List.length_range mr

/-! ## Which queries get issued (apiCall events) -/

theorem searchLoopFuel_events_shape (d : ℚ) (mr : Nat) (q : String)
    (o : AttemptOracle) :
    ∀ fuel j e, e ∈ (searchLoopFuel d mr q o fuel j).2 →
      e = Event.apiCall q ∨ ∃ a, e = Event.sleep a := by
  intro fuel
  induction fuel with
  | zero => intro j e he; simp [searchLoopFuel] at he
  | succ m ih =>
    intro j e he
    rw [searchLoopFuel] at he
    by_cases hj : j < mr
    · rw [if_pos hj] at he
      cases ho : o j with
      | some r =>
        rw [ho] at he
        simp only [List.mem_cons, List.not_mem_nil, or_false] at he
        rcases he with rfl | rfl
        · exact Or.inr ⟨d, rfl⟩
        · exact Or.inl rfl
      | none =>
        rw [ho] at he
        by_cases hl : j + 1 ≥ mr
        · rw [if_pos hl] at he
          simp only [List.mem_cons, List.not_mem_nil, or_false] at he
          rcases he with rfl | rfl
          · exact Or.inr ⟨d, rfl⟩
          · exact Or.inl rfl
        · rw [if_neg hl] at he
          simp only [List.mem_cons] at he
          rcases he with rfl | rfl | rfl | h
          · exact Or.inr ⟨d, rfl⟩
          · exact Or.inl rfl
          · exact Or.inr ⟨_, rfl⟩
          · exact ih (j + 1) e h
    · rw [if_neg hj] at he
      simp at he

theorem searchLoop_apiCall_self (d : ℚ) (mr : Nat) (q : String)
    (o : AttemptOracle) (hmr : 1 ≤ mr) :
    Event.apiCall q ∈ (searchLoop d mr q o 0).2 := by
  unfold searchLoop
  rw [Nat.sub_zero]
  cases mr with
  | zero => omega
  | succ m =>
    rw [searchLoopFuel, if_pos (by omega : 0 < m + 1)]
    cases o 0 with
    | some r => simp
    | none =>
      by_cases hl : 0 + 1 ≥ m + 1
      · rw [if_pos hl]; simp
      · rw [if_neg hl]; simp

theorem searchLoop_apiCall_iff (d : ℚ) (mr : Nat) (q q' : String)
    (o : AttemptOracle) (hmr : 1 ≤ mr) :
    Event.apiCall q' ∈ (searchLoop d mr q o 0).2 ↔ q' = q := by
  constructor
  · intro h
    rcases searchLoopFuel_events_shape d mr q o (mr - 0) 0 _ h with h' | ⟨a, h'⟩
    · exact (Event.apiCall.injEq q' q).mp h'
    · exact absurd h' (by simp)
  · rintro rfl
    exact searchLoop_apiCall_self d mr _ o hmr

theorem runChunk_apiCall (cfg : FinderConfig) (vs : List (String → VerifyResult))
    (pv : String → PhoneResult) (oracle : JobOracle)
    (hmr : 1 ≤ cfg.max_retries) :
    ∀ (L : List String) (st : FinderState) (q' : String),
      Event.apiCall q' ∈ (runChunk cfg vs pv oracle L st).2 ↔ q' ∈ L := by
  intro L
  induction L with
  | nil => intro st q'; simp [runChunk]
  | cons q rest ih =>
    intro st q'
    show Event.apiCall q' ∈ (processQuery cfg vs pv oracle st q).2 ++ _ ↔ _
    rw [List.mem_append]
    unfold processQuery
    dsimp only
    rw [List.mem_append]
    constructor
    · rintro ((h | h) | h)
      · exact List.mem_cons.mpr (Or.inl ((searchLoop_apiCall_iff _ _ _ _ _ hmr).mp h))
      · simp at h
      · exact List.mem_cons.mpr (Or.inr ((ih _ q').mp h))
    · intro h
      rcases List.mem_cons.mp h with h | h
      · exact Or.inl (Or.inl ((searchLoop_apiCall_iff _ _ _ _ _ hmr).mpr h))
      · exact Or.inr ((ih _ q').mpr h)

theorem runBatches_apiCall (cfg : FinderConfig) (vs : List (String → VerifyResult))
    (pv : String → PhoneResult) (oracle : JobOracle)
    (hmr : 1 ≤ cfg.max_retries) :
    ∀ (chunks : List (List String)) (st : FinderState) (q' : String),
      Event.apiCall q' ∈ (runBatches cfg vs pv oracle chunks st).2
        ↔ q' ∈ chunks.flatten := by
  intro chunks
  induction chunks with
  | nil => intro st q'; simp [runBatches]
  | cons c rest ih =>
    intro st q'
    cases rest with
    | nil =>
      show Event.apiCall q' ∈ (runChunk cfg vs pv oracle c st).2 ↔ _
      rw [runChunk_apiCall cfg vs pv oracle hmr]
      simp
    | cons c2 cs =>
      show Event.apiCall q' ∈
        (runChunk cfg vs pv oracle c st).2 ++ [Event.sleep 2] ++ _ ↔ _
      rw [List.mem_append, List.mem_append]
      rw [runChunk_apiCall cfg vs pv oracle hmr, ih]
      simp [List.flatten_cons]

/-! ## Checkpoints cover every processed query -/

theorem runChunk_checkpoint (cfg : FinderConfig) (vs : List (String → VerifyResult))
    (pv : String → PhoneResult) (oracle : JobOracle) :
    ∀ (L : List String) (st : FinderState), ∀ q' ∈ L,
      ∃ P R, Event.checkpoint P R ∈ (runChunk cfg vs pv oracle L st).2 ∧ q' ∈ P := by
  intro L
  induction L with
  | nil => intro st q' h; simp at h
  | cons q rest ih =>
    intro st q' hq'
    show ∃ P R, Event.checkpoint P R ∈ (processQuery cfg vs pv oracle st q).2 ++ _ ∧ _
    rcases List.mem_cons.mp hq' with rfl | h
    · have hmem : Event.checkpoint (insertSet q' st.processed_queries)
          (st.results ++ (searchLoop cfg.rate_limit_delay cfg.max_retries q'
            (oracle q') 0).1.map (verifyPipeline cfg vs pv))
          ∈ (processQuery cfg vs pv oracle st q').2 := by
        unfold processQuery
        dsimp only
        rw [List.mem_append]
        right
        simp
      exact ⟨_, _, List.mem_append.mpr (Or.inl hmem), insertSet_mem_self q' _⟩
    · obtain ⟨P, R, hmem, hP⟩ := ih _ q' h
      exact ⟨P, R, List.mem_append.mpr (Or.inr hmem), hP⟩

theorem runBatches_checkpoint (cfg : FinderConfig) (vs : List (String → VerifyResult))
    (pv : String → PhoneResult) (oracle : JobOracle) :
    ∀ (chunks : List (List String)) (st : FinderState), ∀ q' ∈ chunks.flatten,
      ∃ P R, Event.checkpoint P R ∈ (runBatches cfg vs pv oracle chunks st).2 ∧ q' ∈ P := by
  intro chunks
  induction chunks with
  | nil => intro st q' h; simp at h
  | cons c rest ih =>
    intro st q' hq'
    cases rest with
    | nil =>
      simp only [List.flatten_cons, List.flatten_nil, List.append_nil] at hq'
      exact runChunk_checkpoint cfg vs pv oracle c st q' hq'
    | cons c2 cs =>
      rw [List.flatten_cons, List.mem_append] at hq'
      show ∃ P R, Event.checkpoint P R ∈
        (runChunk cfg vs pv oracle c st).2 ++ [Event.sleep 2] ++ _ ∧ _
      rcases hq' with h | h
      · obtain ⟨P, R, hmem, hP⟩ := runChunk_checkpoint cfg vs pv oracle c st q' h
        exact ⟨P, R, by rw [List.mem_append]; exact Or.inl (by
          rw [List.mem_append]; exact Or.inl hmem), hP⟩
      · obtain ⟨P, R, hmem, hP⟩ := ih _ q' h
        exact ⟨P, R, by rw [List.mem_append]; exact Or.inr hmem, hP⟩

/-! ## Chunking and the remaining-queries filter -/

theorem chunkAux_flatten {α : Type} :
    ∀ (fuel n : Nat) (l : List α), 1 ≤ n → l.length ≤ fuel →
      (chunkAux fuel n l).flatten = l := by
  intro fuel
  induction fuel with
  | zero =>
    intro n l hn hl
    have : l = [] := List.length_eq_zero.mp (by omega)
    subst this
    rfl
  | succ m ih =>
    intro n l hn hl
    cases l with
    | nil => rfl
    | cons x xs =>
      show ((x :: xs).take n :: chunkAux m n ((x :: xs).drop n)).flatten = x :: xs
      rw [List.flatten_cons]
      rw [ih n ((x :: xs).drop n) hn (by
        rw [List.length_drop]
        simp only [List.length_cons] at hl ⊢
        omega)]
      exact List.take_append_drop n (x :: xs)

theorem chunkList_flatten {α : Type} (n : Nat) (l : List α) (hn : 1 ≤ n) :
    (chunkList n l).flatten = l :=
  chunkAux_flatten l.length n l hn (le_refl _)

theorem filter_not_mem_take {qs : List String} (hnd : qs.Nodup) (k : Nat) :
    qs.filter (fun q => ¬ q ∈ qs.take k) = qs.drop k := by
  obtain ⟨t, d', ht, hd⟩ : ∃ t d', t = qs.take k ∧ d' = qs.drop k := ⟨_, _, rfl, rfl⟩
  have hdisj : List.Disjoint t d' := by
    rw [ht, hd]; exact List.disjoint_take_drop hnd (le_refl k)
  have hq : qs = t ++ d' := by rw [ht, hd, List.take_append_drop]
  rw [← ht, ← hd, hq, List.filter_append]
  have h1 : t.filter (fun q => ¬ q ∈ t) = [] := by
    rw [List.filter_eq_nil_iff]
    intro a ha
    simp [ha]
  have h2 : d'.filter (fun q => ¬ q ∈ t) = d' := by
    rw [List.filter_eq_self]
    intro a ha
    simp only [decide_eq_true_eq]
    intro hmem
    exact hdisj hmem ha
  rw [h1, h2, List.nil_append]

theorem filter_not_mem_nil (qs : List String) :
    qs.filter (fun q => ¬ q ∈ ([] : List String)) = qs := by
  rw [List.filter_eq_self]
  intro a _
  simp

/-! ## `find_contacts`: issued queries, checkpoints, result accumulation -/

theorem findContacts_apiCall (cfg : FinderConfig) (vs : List (String → VerifyResult))
    (pv : String → PhoneResult) (oracle : JobOracle) (qs : List String)
    (resume : Bool) (cp : Option CheckpointData)
    (hmr : 1 ≤ cfg.max_retries) (hbs : 1 ≤ cfg.batch_size) (q' : String) :
    Event.apiCall q' ∈ (findContacts cfg vs pv oracle qs resume cp).2
      ↔ q' ∈ qs.filter (fun q =>
          ¬ q ∈ (if resume then loadState cp else freshFinderState).processed_queries) := by
  cases resume with
  | false =>
    unfold findContacts
    simp only [Bool.false_eq_true, if_false]
    split
    · rename_i hempty
      rw [List.isEmpty_iff] at hempty
      rw [hempty]
      simp
    · rw [runBatches_apiCall cfg vs pv oracle hmr, chunkList_flatten _ _ hbs]
  | true =>
    unfold findContacts
    simp only [if_true]
    split
    · rename_i hempty
      rw [List.isEmpty_iff] at hempty
      rw [hempty]
      simp
    · rw [runBatches_apiCall cfg vs pv oracle hmr, chunkList_flatten _ _ hbs]

theorem findContacts_checkpoint (cfg : FinderConfig) (vs : List (String → VerifyResult))
    (pv : String → PhoneResult) (oracle : JobOracle) (qs : List String)
    (resume : Bool) (cp : Option CheckpointData) (hbs : 1 ≤ cfg.batch_size) :
    ∀ q' ∈ qs.filter (fun q =>
        ¬ q ∈ (if resume then loadState cp else freshFinderState).processed_queries),
      ∃ P R, Event.checkpoint P R ∈ (findContacts cfg vs pv oracle qs resume cp).2
        ∧ q' ∈ P := by
  intro q' hq'
  cases resume with
  | false =>
    simp only [Bool.false_eq_true, if_false] at hq'
    unfold findContacts
    simp only [Bool.false_eq_true, if_false]
    split
    · rename_i hempty
      rw [List.isEmpty_iff] at hempty
      rw [hempty] at hq'
      simp at hq'
    · refine runBatches_checkpoint cfg vs pv oracle _ _ q' ?_
      rw [chunkList_flatten _ _ hbs]
      exact hq'
  | true =>
    simp only [if_true] at hq'
    unfold findContacts
    simp only [if_true]
    split
    · rename_i hempty
      rw [List.isEmpty_iff] at hempty
      rw [hempty] at hq'
      simp at hq'
    · refine runBatches_checkpoint cfg vs pv oracle _ _ q' ?_
      rw [chunkList_flatten _ _ hbs]
      exact hq'

/-- C7.  Resuming from a checkpoint that records the first `k` of `n`
distinct queries as processed issues exactly the queries `k+1..n`: a query
is sent to the provider iff it is among the remaining `n-k`, with the
processed ones filtered out and never reissued; and every processed query is
recorded by a persisted checkpoint event containing it (the checkpoint holds
`processed_queries` and the running contact list). -/
theorem resume_skips_processed (cfg : FinderConfig)
    (vs : List (String → VerifyResult)) (pv : String → PhoneResult)
    (oracle : JobOracle) (qs : List String) (k : Nat) (prior : List ContactInfo)
    (hbs : 1 ≤ cfg.batch_size) (hmr : 1 ≤ cfg.max_retries) (hnd : qs.Nodup) :
    (∀ q', Event.apiCall q' ∈ (findContacts cfg vs pv oracle qs true
        (some ⟨qs.take k, prior⟩)).2 ↔ q' ∈ qs.drop k)
      ∧ (∀ q' ∈ qs.drop k, ∃ P R,
          Event.checkpoint P R ∈ (findContacts cfg vs pv oracle qs true
            (some ⟨qs.take k, prior⟩)).2 ∧ q' ∈ P) := by
  have hrem : qs.filter (fun q =>
      ¬ q ∈ (if true then loadState (some ⟨qs.take k, prior⟩)
        else freshFinderState).processed_queries) = qs.drop k := by
    show qs.filter (fun q => ¬ q ∈ qs.take k) = qs.drop k
    exact filter_not_mem_take hnd k
  constructor
  · intro q'
    rw [findContacts_apiCall cfg vs pv oracle qs true _ hmr hbs q', hrem]
  · intro q' hq'
    refine findContacts_checkpoint cfg vs pv oracle qs true _ hbs q' ?_
    rw [hrem]
    exact hq'

/-- C7 witness: three distinct queries, the first already checkpointed. -/
theorem resume_skips_processed_witness :
    (∀ q', Event.apiCall q' ∈ (findContacts {} [] (fun _ => ⟨false, none⟩)
        (fun _ _ => some []) ["qa", "qb", "qc"] true
        (some ⟨["qa", "qb", "qc"].take 1, []⟩)).2
      ↔ q' ∈ ["qa", "qb", "qc"].drop 1)
    ∧ (∀ q' ∈ ["qa", "qb", "qc"].drop 1, ∃ P R,
        Event.checkpoint P R ∈ (findContacts {} [] (fun _ => ⟨false, none⟩)
          (fun _ _ => some []) ["qa", "qb", "qc"] true
          (some ⟨["qa", "qb", "qc"].take 1, []⟩)).2 ∧ q' ∈ P) :=
  resume_skips_processed {} [] (fun _ => ⟨false, none⟩) (fun _ _ => some [])
    ["qa", "qb", "qc"] 1 [] (by norm_num) (by norm_num) (by decide)

/-- C5.  A query whose every attempt raises makes exactly `max_retries`
provider-call attempts — the retry count therefore stays within
`max_retries` — separated by exponential backoff (`2^i` seconds after the
i-th failed attempt) on top of the per-attempt rate-limit sleep, and the
call returns the empty list; such a failure is query-level: in a batch run
every query, including those after the failing one, still gets issued. -/
theorem retries_exhausted_empty :
    (∀ (d : ℚ) (q : String) (mr : Nat) (o : AttemptOracle),
        1 ≤ mr → (∀ i, o i = none) →
        searchLoop d mr q o 0 = ([], specFailEvents d q mr)
          ∧ countCalls (specFailEvents d q mr) = mr)
      ∧ (∀ (cfg : FinderConfig) (vs : List (String → VerifyResult))
            (pv : String → PhoneResult) (oracle : JobOracle)
            (qs : List String) (q : String),
          1 ≤ cfg.max_retries → 1 ≤ cfg.batch_size → q ∈ qs →
          Event.apiCall q ∈ (findContacts cfg vs pv oracle qs false none).2) := by
  constructor
  · intro d q mr o hmr ho
    exact ⟨searchLoop_fail d q mr o hmr ho, countCalls_specFailEvents d q mr⟩
  · intro cfg vs pv oracle qs q hmr hbs hq
    rw [findContacts_apiCall cfg vs pv oracle qs false none hmr hbs q]
    show q ∈ qs.filter (fun q => ¬ q ∈ ([] : List String))
    rw [filter_not_mem_nil]
    exact hq

/-- C5 witness: `max_retries = 3`, every attempt failing — the trace is
rate-limit sleep, call, backoff 2, sleep, call, backoff 4, sleep, call, and
the result is empty; and a failing first query does not stop the second
query of a batch from being issued. -/
theorem retries_exhausted_empty_witness :
    (searchLoop 1 3 "q1" (fun _ => none) 0 = ([], specFailEvents 1 "q1" 3)
        ∧ countCalls (specFailEvents 1 "q1" 3) = 3)
      ∧ Event.apiCall "q2" ∈ (findContacts {} [] (fun _ => ⟨false, none⟩)
          (fun _ _ => none) ["q1", "q2"] false none).2 :=
  ⟨retries_exhausted_empty.1 1 "q1" 3 (fun _ => none) (by norm_num) (fun _ => rfl),
   retries_exhausted_empty.2 {} [] (fun _ => ⟨false, none⟩) (fun _ _ => none)
     ["q1", "q2"] "q2" (by norm_num) (by norm_num) (by decide)⟩

/-! ## Result accumulation: `find_contacts` never deduplicates -/

theorem processQuery_results (cfg : FinderConfig) (vs : List (String → VerifyResult))
    (pv : String → PhoneResult) (oracle : JobOracle) (st : FinderState) (q : String) :
    (processQuery cfg vs pv oracle st q).1.results
      = st.results ++ queryContacts cfg vs pv oracle q := rfl

theorem runChunk_results (cfg : FinderConfig) (vs : List (String → VerifyResult))
    (pv : String → PhoneResult) (oracle : JobOracle) :
    ∀ (L : List String) (st : FinderState),
      (runChunk cfg vs pv oracle L st).1.results
        = st.results ++ L.flatMap (queryContacts cfg vs pv oracle) := by
  intro L
  induction L with
  | nil => intro st; simp [runChunk]
  | cons q rest ih =>
    intro st
    show (runChunk cfg vs pv oracle rest (processQuery cfg vs pv oracle st q).1).1.results = _
    rw [ih, processQuery_results, List.flatMap_cons, List.append_assoc]

theorem runBatches_results (cfg : FinderConfig) (vs : List (String → VerifyResult))
    (pv : String → PhoneResult) (oracle : JobOracle) :
    ∀ (chunks : List (List String)) (st : FinderState),
      (runBatches cfg vs pv oracle chunks st).1.results
        = st.results ++ chunks.flatten.flatMap (queryContacts cfg vs pv oracle) := by
  intro chunks
  induction chunks with
  | nil => intro st; simp [runBatches]
  | cons c rest ih =>
    intro st
    cases rest with
    | nil =>
      show (runChunk cfg vs pv oracle c st).1.results = _
      rw [runChunk_results]
      simp
    | cons c2 cs =>
      show (runBatches cfg vs pv oracle (c2 :: cs)
        (runChunk cfg vs pv oracle c st).1).1.results = _
      rw [ih, runChunk_results, List.append_assoc]
      simp [List.flatten_cons, List.flatMap_append]

/-- C2 (amended).  `find_contacts` performs no deduplication at all: the
final result list is the loaded prior results followed by every contact of
every remaining query's provider answer, each passed through verification
and appended in arrival order.  In particular two candidates with the same
non-empty primary email do NOT collapse to a single Contact (and candidates
with different emails do not collapse either). -/
theorem find_contacts_appends_everything (cfg : FinderConfig)
    (vs : List (String → VerifyResult)) (pv : String → PhoneResult)
    (oracle : JobOracle) (qs : List String) (resume : Bool)
    (cp : Option CheckpointData) (hbs : 1 ≤ cfg.batch_size) :
    (findContacts cfg vs pv oracle qs resume cp).1.results
      = (if resume then loadState cp else freshFinderState).results
        ++ (qs.filter (fun q =>
              ¬ q ∈ (if resume then loadState cp else freshFinderState).processed_queries)).flatMap
            (queryContacts cfg vs pv oracle) := by
  cases resume with
  | false =>
    unfold findContacts
    simp only [Bool.false_eq_true, if_false]
    split
    · rename_i hempty
      rw [List.isEmpty_iff] at hempty
      rw [hempty]
      simp
    · rw [runBatches_results, chunkList_flatten _ _ hbs]
  | true =>
    unfold findContacts
    simp only [if_true]
    split
    · rename_i hempty
      rw [List.isEmpty_iff] at hempty
      rw [hempty]
      simp
    · rw [runBatches_results, chunkList_flatten _ _ hbs]

/-- C2 witness: instantiation of the append characterization at a concrete
run of two queries from a fresh state. -/
theorem find_contacts_appends_everything_witness :
    (findContacts {} [] (fun _ => ⟨false, none⟩) (fun _ _ => some [])
        ["qa", "qb"] false none).1.results
      = (if false then loadState none else freshFinderState).results
        ++ (["qa", "qb"].filter (fun q =>
              ¬ q ∈ (if false then loadState none
                else freshFinderState).processed_queries)).flatMap
            (queryContacts {} [] (fun _ => ⟨false, none⟩) (fun _ _ => some [])) :=
  find_contacts_appends_everything {} [] (fun _ => ⟨false, none⟩)
    (fun _ _ => some []) ["qa", "qb"] false none (by norm_num)

/-- C2 counterexample.  Two queries each returning a candidate with the same
primary email `jane@acme.com` (at confidences 0.6 and 0.9): the final result
set contains BOTH as separate Contacts — same-email candidates do not
collapse to a single Contact. -/
theorem same_email_does_not_collapse :
    ((findContacts { verify_emails := false, verify_phones := false } []
        (fun _ => ⟨false, none⟩)
        (fun q _ =>
          if q = "q1" then
            some [{ name := "Jane Doe", company := "Acme",
                    primary_email := "jane@acme.com", confidence_score := 3/5 }]
          else
            some [{ name := "Jane D.", company := "Acme Inc",
                    primary_email := "jane@acme.com", confidence_score := 9/10 }])
        ["q1", "q2"] false none).1.results.map
      (fun c => c.primary_email)) = ["jane@acme.com", "jane@acme.com"] := by
  decide

/-! ## Rate limiting: every call behind a sleep, and total sleep bounds -/

theorem callsPreceded_append {d : ℚ} {e1 e2 : List Event}
    (h1 : callsPreceded d e1) (h2 : callsPreceded d e2) :
    callsPreceded d (e1 ++ e2) := by
  intro i e hi hc
  by_cases h : i < e1.length
  · rw [List.get?_append h] at hi
    obtain ⟨hpos, hprev⟩ := h1 i e hi hc
    refine ⟨hpos, ?_⟩
    rw [List.get?_append (by omega)]
    exact hprev
  · have hge : e1.length ≤ i := le_of_not_lt h
    rw [List.get?_append_right hge] at hi
    obtain ⟨hpos, hprev⟩ := h2 (i - e1.length) e hi hc
    constructor
    · omega
    · rw [List.get?_append_right (by omega : e1.length ≤ i - 1)]
      have heq : i - 1 - e1.length = i - e1.length - 1 := by omega
      rw [heq]
      exact hprev

theorem callsPreceded_of_no_call {d : ℚ} {evs : List Event}
    (h : ∀ e ∈ evs, match e with | Event.apiCall _ => False | _ => True) :
    callsPreceded d evs := by
  intro i e hi hc
  exfalso
  have hmem : e ∈ evs := List.get?_mem hi
  have := h e hmem
  cases e <;> simp_all

theorem callsPreceded_pair (d : ℚ) (q : String) :
    callsPreceded d [Event.sleep d, Event.apiCall q] := by
  intro i e hi hc
  match i with
  | 0 =>
    exfalso
    have : e = Event.sleep d := by simpa using hi.symm
    subst this
    exact hc
  | 1 =>
    exact ⟨by omega, rfl⟩
  | n + 2 =>
    exfalso
    simp at hi

theorem searchLoopFuel_callsPreceded (d : ℚ) (mr : Nat) (q : String)
    (o : AttemptOracle) :
    ∀ fuel j, callsPreceded d (searchLoopFuel d mr q o fuel j).2 := by
  intro fuel
  induction fuel with
  | zero => intro j; exact callsPreceded_of_no_call (by intro e he; simp [searchLoopFuel] at he)
  | succ m ih =>
    intro j
    rw [searchLoopFuel]
    by_cases hj : j < mr
    · rw [if_pos hj]
      cases o j with
      | some r => exact callsPreceded_pair d q
      | none =>
        by_cases hl : j + 1 ≥ mr
        · rw [if_pos hl]
          exact callsPreceded_pair d q
        · rw [if_neg hl]
          show callsPreceded d ([Event.sleep d, Event.apiCall q]
            ++ ([Event.sleep ((2 : ℚ) ^ (j + 1))]
              ++ (searchLoopFuel d mr q o m (j + 1)).2))
          exact callsPreceded_append (callsPreceded_pair d q)
            (callsPreceded_append
              (callsPreceded_of_no_call (by intro e he; simp at he; subst he; trivial))
              (ih (j + 1)))
    · rw [if_neg hj]
      exact callsPreceded_of_no_call (by intro e he; simp at he)

theorem processQuery_callsPreceded (cfg : FinderConfig)
    (vs : List (String → VerifyResult)) (pv : String → PhoneResult)
    (oracle : JobOracle) (st : FinderState) (q : String) :
    callsPreceded cfg.rate_limit_delay (processQuery cfg vs pv oracle st q).2 := by
  unfold processQuery
  dsimp only
  exact callsPreceded_append (searchLoopFuel_callsPreceded _ _ _ _ _ _)
    (callsPreceded_of_no_call (by intro e he; simp at he; subst he; trivial))

theorem runChunk_callsPreceded (cfg : FinderConfig)
    (vs : List (String → VerifyResult)) (pv : String → PhoneResult)
    (oracle : JobOracle) :
    ∀ (L : List String) (st : FinderState),
      callsPreceded cfg.rate_limit_delay (runChunk cfg vs pv oracle L st).2 := by
  intro L
  induction L with
  | nil =>
    intro st
    exact callsPreceded_of_no_call (by intro e he; simp [runChunk] at he)
  | cons q rest ih =>
    intro st
    exact callsPreceded_append (processQuery_callsPreceded cfg vs pv oracle st q) (ih _)

theorem runBatches_callsPreceded (cfg : FinderConfig)
    (vs : List (String → VerifyResult)) (pv : String → PhoneResult)
    (oracle : JobOracle) :
    ∀ (chunks : List (List String)) (st : FinderState),
      callsPreceded cfg.rate_limit_delay (runBatches cfg vs pv oracle chunks st).2 := by
  intro chunks
  induction chunks with
  | nil =>
    intro st
    exact callsPreceded_of_no_call (by intro e he; simp [runBatches] at he)
  | cons c rest ih =>
    intro st
    cases rest with
    | nil => exact runChunk_callsPreceded cfg vs pv oracle c st
    | cons c2 cs =>
      show callsPreceded _ ((runChunk cfg vs pv oracle c st).2
        ++ [Event.sleep 2] ++ _)
      exact callsPreceded_append
        (callsPreceded_append (runChunk_callsPreceded cfg vs pv oracle c st)
          (callsPreceded_of_no_call (by intro e he; simp at he; subst he; trivial)))
        (ih _)

theorem totalSleep_append (e1 e2 : List Event) :
    totalSleep (e1 ++ e2) = totalSleep e1 + totalSleep e2 := by
  simp [totalSleep]

theorem totalSleep_checkpoint (P : List String) (R : List ContactInfo) :
    totalSleep [Event.checkpoint P R] = 0 := by
  simp [totalSleep]

theorem searchLoopFuel_totalSleep_nonneg (d : ℚ) (mr : Nat) (q : String)
    (o : AttemptOracle) (hd : 0 ≤ d) :
    ∀ fuel j, 0 ≤ totalSleep (searchLoopFuel d mr q o fuel j).2 := by
  intro fuel
  induction fuel with
  | zero => intro j; simp [searchLoopFuel, totalSleep]
  | succ m ih =>
    intro j
    rw [searchLoopFuel]
    by_cases hj : j < mr
    · rw [if_pos hj]
      cases o j with
      | some r => simp [totalSleep]; linarith
      | none =>
        by_cases hl : j + 1 ≥ mr
        · rw [if_pos hl]; simp [totalSleep]; linarith
        · rw [if_neg hl]
          show 0 ≤ totalSleep (Event.sleep d :: Event.apiCall q
            :: Event.sleep ((2 : ℚ) ^ (j + 1)) :: (searchLoopFuel d mr q o m (j + 1)).2)
          have h1 := ih (j + 1)
          have h2 : (0 : ℚ) ≤ 2 ^ (j + 1) := by positivity
          simp only [totalSleep, List.map_cons, List.sum_cons]
          unfold totalSleep at h1
          linarith
    · rw [if_neg hj]; simp [totalSleep]

theorem searchLoop_totalSleep_ge (d : ℚ) (mr : Nat) (q : String)
    (o : AttemptOracle) (hd : 0 ≤ d) (hmr : 1 ≤ mr) :
    d ≤ totalSleep (searchLoop d mr q o 0).2 := by
  unfold searchLoop
  rw [Nat.sub_zero]
  cases mr with
  | zero => omega
  | succ m =>
    rw [searchLoopFuel, if_pos (by omega : 0 < m + 1)]
    cases o 0 with
    | some r => simp [totalSleep]
    | none =>
      by_cases hl : 0 + 1 ≥ m + 1
      · rw [if_pos hl]; simp [totalSleep]
      · rw [if_neg hl]
        show d ≤ totalSleep (Event.sleep d :: Event.apiCall q
          :: Event.sleep ((2 : ℚ) ^ (0 + 1)) :: (searchLoopFuel d (m + 1) q o m (0 + 1)).2)
        have h1 := searchLoopFuel_totalSleep_nonneg d (m + 1) q o hd m (0 + 1)
        have h2 : (0 : ℚ) ≤ 2 ^ (0 + 1) := by positivity
        simp only [totalSleep, List.map_cons, List.sum_cons]
        unfold totalSleep at h1
        linarith

theorem runChunk_totalSleep (cfg : FinderConfig)
    (vs : List (String → VerifyResult)) (pv : String → PhoneResult)
    (oracle : JobOracle) (hd : 0 ≤ cfg.rate_limit_delay)
    (hmr : 1 ≤ cfg.max_retries) :
    ∀ (L : List String) (st : FinderState),
      (L.length : ℚ) * cfg.rate_limit_delay
        ≤ totalSleep (runChunk cfg vs pv oracle L st).2 := by
  intro L
  induction L with
  | nil => intro st; simp [runChunk, totalSleep]
  | cons q rest ih =>
    intro st
    show _ ≤ totalSleep ((processQuery cfg vs pv oracle st q).2 ++ _)
    rw [totalSleep_append]
    have h1 : cfg.rate_limit_delay ≤ totalSleep (processQuery cfg vs pv oracle st q).2 := by
      unfold processQuery
      dsimp only
      rw [totalSleep_append, totalSleep_checkpoint]
      have := searchLoop_totalSleep_ge cfg.rate_limit_delay cfg.max_retries q
        (oracle q) hd hmr
      linarith
    have h2 := ih (processQuery cfg vs pv oracle st q).1
    rw [List.length_cons]
    push_cast
    linarith

theorem runBatches_totalSleep (cfg : FinderConfig)
    (vs : List (String → VerifyResult)) (pv : String → PhoneResult)
    (oracle : JobOracle) (hd : 0 ≤ cfg.rate_limit_delay)
    (hmr : 1 ≤ cfg.max_retries) :
    ∀ (chunks : List (List String)) (st : FinderState),
      (chunks.flatten.length : ℚ) * cfg.rate_limit_delay
        ≤ totalSleep (runBatches cfg vs pv oracle chunks st).2 := by
  intro chunks
  induction chunks with
  | nil => intro st; simp [runBatches, totalSleep]
  | cons c rest ih =>
    intro st
    cases rest with
    | nil =>
      have := runChunk_totalSleep cfg vs pv oracle hd hmr c st
      simpa [List.flatten_cons] using this
    | cons c2 cs =>
      show _ ≤ totalSleep ((runChunk cfg vs pv oracle c st).2
        ++ [Event.sleep 2] ++ _)
      rw [totalSleep_append, totalSleep_append]
      have h1 := runChunk_totalSleep cfg vs pv oracle hd hmr c st
      have h2 := ih (runChunk cfg vs pv oracle c st).1
      have h3 : totalSleep [Event.sleep 2] = 2 := by simp [totalSleep]
      rw [List.flatten_cons, List.length_append]
      push_cast
      rw [h3]
      linarith

/-- C6.  In a batch run, every provider call event — including every retry
attempt — is immediately preceded by a sleep of the configured rate-limit
delay, and across a fresh run of the `n` given queries the total slept time
is at least `(n-1) * d` (the code in fact sleeps at least `n * d`, since the
delay precedes every call). -/
theorem rate_limit_honored (cfg : FinderConfig)
    (vs : List (String → VerifyResult)) (pv : String → PhoneResult)
    (oracle : JobOracle) (qs : List String)
    (hd : 0 ≤ cfg.rate_limit_delay) (hmr : 1 ≤ cfg.max_retries)
    (hbs : 1 ≤ cfg.batch_size) :
    callsPreceded cfg.rate_limit_delay (findContacts cfg vs pv oracle qs false none).2
      ∧ ((qs.length : ℚ) - 1) * cfg.rate_limit_delay
          ≤ totalSleep (findContacts cfg vs pv oracle qs false none).2 := by
  unfold findContacts
  simp only [Bool.false_eq_true, if_false]
  have hfil : qs.filter (fun q =>
      ¬ q ∈ freshFinderState.processed_queries) = qs := filter_not_mem_nil qs
  rw [hfil]
  split
  · rename_i hempty
    rw [List.isEmpty_iff] at hempty
    subst hempty
    constructor
    · exact callsPreceded_of_no_call (by intro e he; simp at he)
    · simp [totalSleep]
      linarith
  · constructor
    · exact runBatches_callsPreceded cfg vs pv oracle _ _
    · have h1 := runBatches_totalSleep cfg vs pv oracle hd hmr
        (chunkList cfg.batch_size qs) freshFinderState
      rw [chunkList_flatten _ _ hbs] at h1
      have h2 : ((qs.length : ℚ) - 1) * cfg.rate_limit_delay
          ≤ (qs.length : ℚ) * cfg.rate_limit_delay := by
        apply mul_le_mul_of_nonneg_right _ hd
        linarith
      linarith

/-- C6 witness: a two-query fresh run with delay 1, default retries. -/
theorem rate_limit_honored_witness :
    callsPreceded (1 : ℚ) (findContacts {} [] (fun _ => ⟨false, none⟩)
        (fun _ _ => some []) ["qa", "qb"] false none).2
      ∧ (((["qa", "qb"] : List String).length : ℚ) - 1) * (1 : ℚ)
          ≤ totalSleep (findContacts {} [] (fun _ => ⟨false, none⟩)
              (fun _ _ => some []) ["qa", "qb"] false none).2 :=
  rate_limit_honored {} [] (fun _ => ⟨false, none⟩) (fun _ _ => some [])
    ["qa", "qb"] (by norm_num) (by norm_num) (by norm_num)

/-! ## Web job cancellation -/

theorem enrichLoop_cancelled (provider : String → String → PyCall)
    (cancelRead : Nat → Bool) (pauseSpins : Nat → Nat) (T : Nat) :
    ∀ (groups : List (String × List String)) (m i tp : Nat)
      (results : List WebResult) (js : JobStatus),
      js.results = results →
      (∀ j, j < m → cancelRead (i + j) = false) →
      cancelRead (i + m) = true →
      m < groups.length →
      (enrichLoop provider cancelRead pauseSpins T groups i tp results js).status
          = "cancelled"
        ∧ (enrichLoop provider cancelRead pauseSpins T groups i tp results js).results
            = results ++ (groups.take m).flatMap (groupWebResults provider) := by
  intro groups
  induction groups with
  | nil => intro m i tp results js hjs hc hm hlen; simp at hlen
  | cons g rest ih =>
    intro m i tp results js hjs hc hm hlen
    obtain ⟨company, roles⟩ := g
    cases m with
    | zero =>
      rw [Nat.add_zero] at hm
      unfold enrichLoop
      dsimp only
      rw [hm]
      by_cases hp : pauseSpins i > 0
      · rw [if_pos hp]
        simp [hjs]
      · rw [if_neg hp]
        simp [hjs]
    | succ m' =>
      have hc0 : cancelRead i = false := by simpa using hc 0 (by omega)
      have hlen' : m' < rest.length := by
        simp only [List.length_cons] at hlen; omega
      have hcShift : ∀ j, j < m' → cancelRead (i + 1 + j) = false := by
        intro j hj
        rw [show i + 1 + j = i + (j + 1) by omega]
        exact hc (j + 1) (by omega)
      have hmShift : cancelRead (i + 1 + m') = true := by
        rw [show i + 1 + m' = i + (m' + 1) by omega]
        exact hm
      unfold enrichLoop
      dsimp only
      rw [hc0]
      simp only [Bool.false_eq_true, if_false]
      rw [List.take_succ_cons, List.flatMap_cons]
      cases hout : provider (mkBatchQuery company roles) (mkContext company roles) with
      | ok cs =>
        have hg : groupWebResults provider (company, roles)
            = cs.map (buildWebResult company) := by
          simp [groupWebResults, hout]
        by_cases hemp : cs.isEmpty
        · rw [List.isEmpty_iff] at hemp
          subst hemp
          dsimp only
          simp only [List.isEmpty_nil, if_true]
          rw [hg]
          simp only [List.map_nil, List.nil_append]
          exact ih m' (i + 1) (tp + roles.length) results _ rfl
            hcShift hmShift hlen'
        · dsimp only
          rw [if_neg hemp, hg, ← List.append_assoc]
          exact ih m' (i + 1) (tp + roles.length)
            (results ++ cs.map (buildWebResult company)) _ rfl
            hcShift hmShift hlen'
      | exn msg =>
        have hg : groupWebResults provider (company, roles) = [] := by
          simp [groupWebResults, hout]
        dsimp only
        rw [hg]
        simp only [List.nil_append]
        exact ih m' (i + 1) (tp + roles.length) results _ rfl
          hcShift hmShift hlen'

/-- C8.  Cancellation is cooperative: the flag is polled at the top of each
loop iteration, between provider calls, never mid-call.  When the poll of
iteration `m` first reads the flag as set, the job's status becomes
`cancelled` and the job's result list is exactly the results accumulated by
the `m` completed iterations — every contact merged before the cancellation
point is retained in `job_status['results']` (which the status route returns
to the caller) and never discarded. -/
theorem cancel_retains_results (provider : String → String → PyCall)
    (cancelRead : Nat → Bool) (pauseSpins : Nat → Nat) (qs : List QueryItem)
    (m : Nat) (hc : ∀ j, j < m → cancelRead j = false)
    (hm : cancelRead m = true) (hlen : m < (groupQueries qs).length) :
    (runEnrichment true provider cancelRead pauseSpins qs).status = "cancelled"
      ∧ (runEnrichment true provider cancelRead pauseSpins qs).results
          = ((groupQueries qs).take m).flatMap (groupWebResults provider) := by
  unfold runEnrichment
  rw [if_neg (by simp)]
  have h := enrichLoop_cancelled provider cancelRead pauseSpins qs.length
    (groupQueries qs) m 0 0 [] (initJobStatus qs.length) rfl
    (by intro j hj; simpa using hc j hj) (by simpa using hm) hlen
  simpa using h

/-- C8 witness: five one-role companies, cancel signalled while the third is
about to run, each completed provider call having returned two contacts —
the job ends `cancelled` with all four already-merged contacts retained. -/
theorem cancel_retains_results_witness :
    (runEnrichment true
        (fun _ _ => PyCall.ok
          [{ name := "P One", company := "C1", primary_email := "p1@c.com" },
           { name := "P Two", company := "C2", primary_email := "p2@c.com" }])
        (fun j => decide (2 ≤ j)) (fun _ => 0)
        [⟨"Alpha", "CEO", ""⟩, ⟨"Beta", "CEO", ""⟩, ⟨"Gamma", "CEO", ""⟩,
         ⟨"Delta", "CEO", ""⟩, ⟨"Epsilon", "CEO", ""⟩]).status = "cancelled"
      ∧ (runEnrichment true
          (fun _ _ => PyCall.ok
            [{ name := "P One", company := "C1", primary_email := "p1@c.com" },
             { name := "P Two", company := "C2", primary_email := "p2@c.com" }])
          (fun j => decide (2 ≤ j)) (fun _ => 0)
          [⟨"Alpha", "CEO", ""⟩, ⟨"Beta", "CEO", ""⟩, ⟨"Gamma", "CEO", ""⟩,
           ⟨"Delta", "CEO", ""⟩, ⟨"Epsilon", "CEO", ""⟩]).results
        = ((groupQueries
            [⟨"Alpha", "CEO", ""⟩, ⟨"Beta", "CEO", ""⟩, ⟨"Gamma", "CEO", ""⟩,
             ⟨"Delta", "CEO", ""⟩, ⟨"Epsilon", "CEO", ""⟩]).take 2).flatMap
            (groupWebResults
              (fun _ _ => PyCall.ok
                [{ name := "P One", company := "C1", primary_email := "p1@c.com" },
                 { name := "P Two", company := "C2", primary_email := "p2@c.com" }])) :=
  cancel_retains_results
    (fun _ _ => PyCall.ok
      [{ name := "P One", company := "C1", primary_email := "p1@c.com" },
       { name := "P Two", company := "C2", primary_email := "p2@c.com" }])
    (fun j => decide (2 ≤ j)) (fun _ => 0)
    [⟨"Alpha", "CEO", ""⟩, ⟨"Beta", "CEO", ""⟩, ⟨"Gamma", "CEO", ""⟩,
     ⟨"Delta", "CEO", ""⟩, ⟨"Epsilon", "CEO", ""⟩]
    2 (by decide) (by decide) (by decide)

end PCF
